import Mathlib

set_option linter.all false
set_option maxRecDepth 16000

/- Shallow embedding of hidden_zip (main.go): a forensic scanner that walks a
byte stream looking for ZIP local-file-header signatures and reports each
acceptable header.  Byte streams are modelled as lists of byte values with an
explicit read/seek cursor.  Reads behave like os.File reads: a read returns
min(requested, remaining) bytes, and a read at end of stream returns the EOF
error.  An injectable seek-failure flag models an io.ReadSeeker whose Seek
calls fail, which the source must tolerate or propagate. -/

/-- Errors surfaced by stream operations, plus the runtime-panic outcome of
the slice-bound violation in scanReader when a first read returns fewer than
len(sep)-1 bytes (Go evaluates buf[n-start:] with a negative index). -/
inductive GoErr
  | eof
  | seekFailed
  | panicked
deriving DecidableEq

/-- Result of a Go call returning a value and an error. -/
inductive RRes (α : Type)
  | ok (a : α)
  | err (e : GoErr)
deriving DecidableEq

/-- A readable and seekable byte stream: the backing bytes, the cursor, and a
flag injecting failure into every Seek call (modelling a faulty ReadSeeker). -/
structure ZStream where
  data : List Nat
  pos : Nat
  seekFail : Bool
deriving DecidableEq

/-- r.Read(buf) with len(buf) = k on an os.File-like stream: returns
min(k, remaining) bytes and advances the cursor; at end of stream with k > 0
it returns io.EOF; with k = 0 it returns no bytes and no error. -/
def readStream (s : ZStream) (k : Nat) : RRes (List Nat × ZStream) :=
  if k = 0 then .ok ([], s)
  else if s.data.length - s.pos = 0 then .err .eof
  else
    let chunk := (s.data.drop s.pos).take k
    .ok (chunk, ⟨s.data, s.pos + chunk.length, s.seekFail⟩)

/-- r.Seek(delta, io.SeekCurrent): fails when the stream's Seek is failing or
when the resulting offset would be negative; otherwise moves the cursor. -/
def seekCur (s : ZStream) (delta : Int) : RRes ZStream :=
  if s.seekFail then .err .seekFailed
  else if (s.pos : Int) + delta < 0 then .err .seekFailed
  else .ok ⟨s.data, ((s.pos : Int) + delta).toNat, s.seekFail⟩

/-- A Seek whose error is discarded, as on the rejection path of
nextFileHeader (`_, err = r.Seek(...)` followed by `continue`): on failure the
cursor is left where it was. -/
def seekIgnore (s : ZStream) (delta : Int) : ZStream :=
  match seekCur s delta with
  | .ok s' => s'
  | .err _ => s

/-- bytes.Index: index of the first occurrence of sep in l, or none. -/
def goIndex (sep : List Nat) : List Nat → Option Nat
  | [] => if ([] : List Nat).take sep.length = sep then some 0 else none
  | a :: t =>
    if (a :: t).take sep.length = sep then some 0
    else (goIndex sep t).map (· + 1)

/-- The loop body of scanReader: `carry` holds the bytes retained at the front
of the 4096-byte buffer (the last len(sep)-1 bytes of the previous chunk).
Each iteration reads into the rest of the buffer, searches the valid region
for sep, and on a miss carries the last len(sep)-1 bytes over.  When the valid
region is shorter than len(sep)-1 the Go code evaluates buf[n-start:] with a
negative index and panics. -/
def scanLoop (sep : List Nat) : Nat → ZStream → List Nat → Option (RRes (List Nat × ZStream))
  | 0, _, _ => none
  | fuel + 1, s, carry =>
    match readStream s (4096 - carry.length) with
    | .err e => some (.err e)
    | .ok (chunk, s') =>
      let cur := carry ++ chunk
      match goIndex sep cur with
      | some idx => some (.ok (cur.drop (idx + sep.length), s'))
      | none =>
        if cur.length < sep.length - 1 then some (.err .panicked)
        else scanLoop sep fuel s' (cur.drop (cur.length - (sep.length - 1)))

/-- scanReader reads from the stream until it finds sep, returning the slice
of already-read data that follows sep. -/
def scanReader (fuel : Nat) (s : ZStream) (sep : List Nat) : Option (RRes (List Nat × ZStream)) :=
  scanLoop sep fuel s []

/-- The 4-byte local-file-header signature 0x04034b50 in little-endian order,
as written by binary.Write into the separator buffer. -/
def sigBytes : List Nat := [80, 75, 3, 4]

/-- The signature occurs in d at position p. -/
def matchAt (d : List Nat) (p : Nat) : Prop := (d.drop p).take 4 = sigBytes

instance (d : List Nat) (p : Nat) : Decidable (matchAt d p) := by
  unfold matchAt; infer_instance

/-- The local file header record, fields as in the Go struct. -/
structure FileHeader where
  version : Nat
  flags : Nat
  compression : Nat
  mtime : Nat
  mdate : Nat
  namelen : Nat
  extralen : Nat
  crc32 : Nat
  csize : Nat
  size : Nat
  name : List Nat
  extra : List Nat
deriving DecidableEq

/-- binary.Read of a little-endian uint16 from a byte buffer: with fewer than
two bytes available the error is ignored by the caller and the field keeps its
zero value, with the buffer drained. -/
def readU16 : List Nat → Nat × List Nat
  | b0 :: b1 :: t => (b0 + 256 * b1, t)
  | _ => (0, [])

/-- binary.Read of a little-endian uint32, with the same zero-on-short-buffer
behaviour as readU16. -/
def readU32 : List Nat → Nat × List Nat
  | b0 :: b1 :: b2 :: b3 :: t => (b0 + 256 * b1 + 65536 * b2 + 16777216 * b3, t)
  | _ => (0, [])

/-- The ten consecutive binary.Read calls decoding the fixed 26-byte field
block of a candidate header from the bytes following the signature. -/
def decodeFields (rest : List Nat) : FileHeader :=
  let p1 := readU16 rest
  let p2 := readU16 p1.2
  let p3 := readU16 p2.2
  let p4 := readU16 p3.2
  let p5 := readU16 p4.2
  let p6 := readU32 p5.2
  let p7 := readU32 p6.2
  let p8 := readU32 p7.2
  let p9 := readU16 p8.2
  let p10 := readU16 p9.2
  { version := p1.1, flags := p2.1, compression := p3.1, mtime := p4.1, mdate := p5.1,
    crc32 := p6.1, csize := p7.1, size := p8.1, namelen := p9.1, extralen := p10.1,
    name := [], extra := [] }

/-- The plausibility bound applied to a decoded candidate. -/
def lengthsOK (h : FileHeader) : Prop :=
  h.namelen ≤ 255 ∧ h.extralen ≤ 255 ∧ h.namelen + h.extralen ≤ 255

instance (h : FileHeader) : Decidable (lengthsOK h) := by
  unfold lengthsOK; infer_instance

/-- Outcome of one pass of nextFileHeader's loop body. -/
inductive StepRes
  | errS (e : GoErr)
  | found (h : FileHeader) (s : ZStream)
  | rejected (s : ZStream)
deriving DecidableEq

/-- The decode-validate-extract phase of nextFileHeader, applied to the bytes
`rest` available for the candidate.  On implausible lengths it rewinds the
stream by len(rest) with the Seek error discarded and signals a retry.  On
acceptance the name and extra are sliced out of rest extended by the zero
bytes of the appended lookahead region (Go slicing up to capacity), and the
stream is repositioned to just past the extra field relative to rest, with a
checked Seek. -/
def decodePhase (rest : List Nat) (s : ZStream) : StepRes :=
  let h := decodeFields rest
  if h.namelen > 255 ∨ h.extralen > 255 ∨ h.namelen + h.extralen > 255 then
    .rejected (seekIgnore s (-(rest.length : Int)))
  else
    let restPad := rest ++ List.replicate (285 - rest.length) 0
    let nm := (restPad.drop 26).take h.namelen
    let ex := (restPad.drop (26 + h.namelen)).take h.extralen
    match seekCur s (26 + (h.namelen : Int) + (h.extralen : Int) - (rest.length : Int)) with
    | .err e => .errS e
    | .ok s' => .found { h with name := nm, extra := ex } s'

/-- One pass of nextFileHeader's loop: scan for the signature; if fewer than
headersize = 30 + 255 = 285 bytes follow it in the buffer, read up to 285
fresh bytes and use only those as the candidate bytes (the reslicing
`rest[len(rest)-headersize : len(rest)-headersize+n]` drops the buffered
bytes); then decode and validate. -/
def nextStep (fuel : Nat) (s : ZStream) : Option StepRes :=
  match scanReader fuel s sigBytes with
  | none => none
  | some (.err e) => some (.errS e)
  | some (.ok (rest, s1)) =>
    if rest.length < 285 then
      match readStream s1 285 with
      | .err e => some (.errS e)
      | .ok (chunk, s2) => some (decodePhase chunk s2)
    else
      some (decodePhase rest s1)

/-- nextFileHeader: repeat the scan-decode pass until a header is accepted or
an error is returned; a rejected candidate is retried silently. -/
def nextFileHeader : Nat → ZStream → Option (RRes (FileHeader × ZStream))
  | 0, _ => none
  | fuel + 1, s =>
    match nextStep (fuel + 1) s with
    | none => none
    | some (.errS e) => some (.err e)
    | some (.found h s') => some (.ok (h, s'))
    | some (.rejected s') => nextFileHeader fuel s'

/-- Go's string(bytes) applied to raw header name bytes. -/
def goString (bs : List Nat) : String := String.mk (bs.map Char.ofNat)

/-- One line of driver output: fmt.Printf of name, offset and size. -/
def formatLine (name : List Nat) (pos : Nat) (size : Nat) : String :=
  goString name ++ " at " ++ toString pos ++ " len " ++ toString size

/-- searchFileHeaders: repeatedly fetch the next header, read the current
offset with Seek(0, io.SeekCurrent), and emit one line per header; the loop
only ends by returning an error, which the caller prints. -/
def searchFileHeaders : Nat → ZStream → Option (List String × GoErr)
  | 0, _ => none
  | fuel + 1, s =>
    match nextFileHeader (fuel + 1) s with
    | none => none
    | some (.err e) => some ([], e)
    | some (.ok (h, s')) =>
      match seekCur s' 0 with
      | .err e => some ([], e)
      | .ok s'' =>
        match searchFileHeaders fuel s'' with
        | none => none
        | some (lines, e) => some (formatLine h.name s''.pos h.size :: lines, e)

/-- The text fmt.Println prints for each terminal error. -/
def errText : GoErr → String
  | .eof => "EOF"
  | .seekFailed => "seek failed"
  | .panicked => "runtime error"

/-- Outcome of the whole process: normal termination with the stdout lines and
the exit status, or a runtime panic with whatever stdout was produced. -/
inductive MainRes
  | done (out : List String) (exit : Nat)
  | panicked (out : List String)
deriving DecidableEq

/-- main: with an argument count other than two it prints the usage message
but still falls through; it then indexes os.Args[1], panicking when absent,
and otherwise scans the stream standing for the opened file, prints the
terminal error and returns, exiting with status 0. -/
def runMain (args : List String) (s : ZStream) (fuel : Nat) : Option MainRes :=
  let usage : List String :=
    if args.length ≠ 2 then
      ["Usage: " ++ args.headD "" ++ " <file.zip>",
       "Find hidden files in a Zip archive by looking for local file headers."]
    else []
  if 2 ≤ args.length then
    match searchFileHeaders fuel s with
    | none => none
    | some (lines, e) =>
      if e = GoErr.panicked then some (.panicked (usage ++ lines))
      else some (.done (usage ++ lines ++ [errText e]) 0)
  else
    some (.panicked usage)

/-- Little-endian 16-bit value stored in d at byte index i (out-of-range bytes
read as 0); used to talk about the true field bytes of a stream region. -/
def le16At (d : List Nat) (i : Nat) : Nat := d.getD i 0 + 256 * d.getD (i + 1) 0

/-- Little-endian encoding of a 16-bit value. -/
def encodeU16 (v : Nat) : List Nat := [v % 256, v / 256 % 256]

/-- Little-endian encoding of a 32-bit value. -/
def encodeU32 (v : Nat) : List Nat :=
  [v % 256, v / 256 % 256, v / 65536 % 256, v / 16777216 % 256]

/-- The fixed 26-byte block of a local file header, fields in wire order. -/
def encodeFixed (h : FileHeader) : List Nat :=
  encodeU16 h.version ++ encodeU16 h.flags ++ encodeU16 h.compression ++
  encodeU16 h.mtime ++ encodeU16 h.mdate ++ encodeU32 h.crc32 ++
  encodeU32 h.csize ++ encodeU32 h.size ++ encodeU16 h.namelen ++ encodeU16 h.extralen

/-- The bytes of a synthetically constructed local file header body (fixed
block, then name, then extra), as placed after the signature. -/
def encodeHeaderBody (h : FileHeader) : List Nat := encodeFixed h ++ h.name ++ h.extra

/-- The bytes of the entry name "a.txt". -/
def aTxt : List Nat := [97, 46, 116, 120, 116]

/-- A well-formed local file header for an entry named "a.txt" with stored
(uncompressed) size 12. -/
def hA : FileHeader :=
  { version := 20, flags := 0, compression := 0, mtime := 0, mdate := 0,
    namelen := 5, extralen := 0, crc32 := 0, csize := 12, size := 12,
    name := aTxt, extra := [] }

/-- Twelve bytes of stored file content. -/
def contentA : List Nat := [104, 101, 108, 108, 111, 32, 119, 111, 114, 108, 100, 46]

/-- A central-directory file header describing the "a.txt" entry. -/
def cdA : List Nat :=
  [80, 75, 1, 2] ++ encodeU16 20 ++ encodeU16 20 ++ encodeU16 0 ++ encodeU16 0 ++
  encodeU16 0 ++ encodeU16 0 ++ encodeU32 0 ++ encodeU32 12 ++ encodeU32 12 ++
  encodeU16 5 ++ encodeU16 0 ++ encodeU16 0 ++ encodeU16 0 ++ encodeU16 0 ++
  encodeU32 0 ++ encodeU32 0 ++ aTxt

/-- An end-of-central-directory record for the single-entry archive. -/
def eocdA : List Nat :=
  [80, 75, 5, 6] ++ encodeU16 0 ++ encodeU16 0 ++ encodeU16 1 ++ encodeU16 1 ++
  encodeU32 51 ++ encodeU32 47 ++ encodeU16 0

/-- A minimal well-formed single-entry archive: local header, content, central
directory, end record; only 116 bytes follow the local header signature. -/
def archiveMin : List Nat := sigBytes ++ encodeHeaderBody hA ++ contentA ++ cdA ++ eocdA

/-- The bytes following the signature in the padded single-entry archive:
content, central directory, end record, and 200 bytes of zero padding, so
that at least 285 bytes follow the signature. -/
def suffA : List Nat := contentA ++ cdA ++ eocdA ++ List.replicate 200 0

/-- The padded well-formed single-entry archive. -/
def archivePad : List Nat := sigBytes ++ (encodeHeaderBody hA ++ suffA)

/-- A stream holding one spurious signature followed by bytes whose decoded
name length is 0xffff, an implausible candidate; 285 bytes follow the
signature so the candidate needs no top-up. -/
def d1 : List Nat := sigBytes ++ List.replicate 22 1 ++ [255, 255] ++ List.replicate 261 9

/-- A stream of length 4097 whose genuine header signature sits at offset
4000, so that only 92 bytes follow it inside the first 4096-byte scanner
chunk and the decoder takes the top-up path. -/
def d4 : List Nat :=
  List.replicate 4000 0 ++ (sigBytes ++ (encodeHeaderBody hA ++ List.replicate 62 0))

/-- A stream that is exactly one valid local file header and nothing else:
the stream ends 31 bytes after the signature. -/
def d5 : List Nat := sigBytes ++ encodeHeaderBody hA

/-- The all-zero header decoded when the top-up read returns a single zero
byte. -/
def hZero : FileHeader :=
  { version := 0, flags := 0, compression := 0, mtime := 0, mdate := 0,
    namelen := 0, extralen := 0, crc32 := 0, csize := 0, size := 0,
    name := [], extra := [] }

/-- A stream whose only signature occurrence starts at offset 4094 and hence
straddles the scanner's first 4096-byte read. -/
def stradStream : List Nat := List.replicate 4094 0 ++ (sigBytes ++ List.replicate 20 7)

/-- A header with a distinct nontrivial value in every field, used to witness
the field round-trip. -/
def hB : FileHeader :=
  { version := 20, flags := 8, compression := 8, mtime := 1234, mdate := 567,
    namelen := 3, extralen := 2, crc32 := 305419896, csize := 999, size := 12345,
    name := [65, 66, 67], extra := [1, 2] }

/-- A stream holding the synthetic header hB followed by zero padding. -/
def dB : List Nat := sigBytes ++ (encodeHeaderBody hB ++ List.replicate 280 0)

/-- A 285-byte candidate region whose decoded lengths pass the bound, used to
witness the acceptance bound. -/
def restC5 : List Nat := encodeHeaderBody hA ++ List.replicate 254 0

theorem sigBytes_len : sigBytes.length = 4 := rfl

theorem goIndex_none (sep l : List Nat) (h : ∀ j, (l.drop j).take sep.length ≠ sep) :
    goIndex sep l = none := by
  induction l with
  | nil =>
    have h0 := h 0
    simp only [List.drop_nil, List.take_nil] at h0
    simp only [goIndex, List.take_nil, if_neg h0]
  | cons a t ih =>
    have h0 := h 0
    simp only [List.drop_zero] at h0
    simp only [goIndex, if_neg h0]
    rw [ih]
    · rfl
    · intro j
      have := h (j + 1)
      simpa using this

theorem goIndex_some (sep l : List Nat) (i : Nat)
    (hi : (l.drop i).take sep.length = sep)
    (hlt : ∀ j < i, (l.drop j).take sep.length ≠ sep) :
    goIndex sep l = some i := by
  induction l generalizing i with
  | nil =>
    have hsep : sep = [] := by
      simpa using hi.symm
    have hi0 : i = 0 := by
      by_contra hne
      exact hlt 0 (by omega) (by simp [hsep])
    subst hi0
    simp [goIndex, hsep]
  | cons a t ih =>
    cases i with
    | zero =>
      simp only [List.drop_zero] at hi
      simp [goIndex, hi]
    | succ i' =>
      have h0 := hlt 0 (by omega)
      simp only [List.drop_zero] at h0
      simp only [goIndex, if_neg h0]
      rw [ih i' (by simpa using hi) (fun j hj => by simpa using hlt (j + 1) (by omega))]
      rfl

theorem window_take4 (x : List Nat) (m j : Nat) (h : j + 4 ≤ m) :
    ((x.take m).drop j).take 4 = (x.drop j).take 4 := by
  rw [List.drop_take, List.take_take]
  congr 1
  omega

theorem window_short (x : List Nat) (m j : Nat) (h : m ≤ j + 3) :
    ((x.take m).drop j).take 4 ≠ sigBytes := by
  intro hc
  have hl := congrArg List.length hc
  simp only [List.length_take, List.length_drop, sigBytes, List.length_cons,
    List.length_nil] at hl
  omega

theorem matchAt_le (d : List Nat) (p : Nat) (h : matchAt d p) : p + 4 ≤ d.length := by
  have hl := congrArg List.length h
  simp only [matchAt, List.length_take, List.length_drop, sigBytes, List.length_cons,
    List.length_nil] at hl
  omega

theorem readStream_ok (d : List Nat) (pos k : Nat) (sf : Bool)
    (hk : k ≠ 0) (hrem : d.length - pos ≠ 0) :
    readStream ⟨d, pos, sf⟩ k =
      .ok ((d.drop pos).take k, ⟨d, pos + min k (d.length - pos), sf⟩) := by
  simp only [readStream, if_neg hk, if_neg hrem]
  congr 2
  simp [List.length_take, List.length_drop]

theorem readStream_eof (d : List Nat) (pos k : Nat) (sf : Bool)
    (hk : k ≠ 0) (hrem : d.length - pos = 0) :
    readStream ⟨d, pos, sf⟩ k = .err .eof := by
  simp [readStream, hk, hrem]

theorem scanLoop_step_found (sep : List Nat) (fuel : Nat) (s : ZStream)
    (carry chunk : List Nat) (s' : ZStream) (idx : Nat)
    (hread : readStream s (4096 - carry.length) = .ok (chunk, s'))
    (hidx : goIndex sep (carry ++ chunk) = some idx) :
    scanLoop sep (fuel + 1) s carry =
      some (.ok ((carry ++ chunk).drop (idx + sep.length), s')) := by
  simp only [scanLoop, hread, hidx]

theorem scanLoop_step_miss (sep : List Nat) (fuel : Nat) (s : ZStream)
    (carry chunk : List Nat) (s' : ZStream)
    (hread : readStream s (4096 - carry.length) = .ok (chunk, s'))
    (hidx : goIndex sep (carry ++ chunk) = none)
    (hn : ¬ (carry ++ chunk).length < sep.length - 1) :
    scanLoop sep (fuel + 1) s carry =
      scanLoop sep fuel s' ((carry ++ chunk).drop ((carry ++ chunk).length - (sep.length - 1))) := by
  simp only [scanLoop, hread, hidx, if_neg hn]

theorem scanReader_found_one (d : List Nat) (pos p fuel : Nat) (sf : Bool)
    (hfirst : ∀ q, pos ≤ q → q < p → ¬ matchAt d q)
    (hmatch : matchAt d p)
    (hpos : pos ≤ p)
    (hin : p + 4 ≤ pos + min 4096 (d.length - pos)) :
    scanReader (fuel + 1) ⟨d, pos, sf⟩ sigBytes =
      some (.ok ((d.drop (p + 4)).take (pos + min 4096 (d.length - pos) - (p + 4)),
                 ⟨d, pos + min 4096 (d.length - pos), sf⟩)) := by
  have hlen : p + 4 ≤ d.length := matchAt_le d p hmatch
  have hrem : d.length - pos ≠ 0 := by omega
  have hread := readStream_ok d pos 4096 sf (by omega) hrem
  have hidx : goIndex sigBytes ([] ++ (d.drop pos).take 4096) = some (p - pos) := by
    rw [List.nil_append]
    apply goIndex_some
    · rw [sigBytes_len, window_take4 _ _ _ (by omega), List.drop_drop]
      have hpp : pos + (p - pos) = p := by omega
      rw [hpp]
      exact hmatch
    · intro j hj
      rw [sigBytes_len, window_take4 _ _ _ (by omega), List.drop_drop]
      exact hfirst (pos + j) (by omega) (by omega)
  have hstep := scanLoop_step_found sigBytes fuel ⟨d, pos, sf⟩ []
      ((d.drop pos).take 4096) ⟨d, pos + min 4096 (d.length - pos), sf⟩ (p - pos)
      (by simpa using hread) hidx
  have hres : (([] ++ (d.drop pos).take 4096).drop ((p - pos) + sigBytes.length)) =
      (d.drop (p + 4)).take (pos + min 4096 (d.length - pos) - (p + 4)) := by
    rw [List.nil_append, sigBytes_len, List.drop_take, List.drop_drop]
    have hix : pos + (p - pos + 4) = p + 4 := by omega
    rw [hix]
    rcases le_or_lt 4096 (d.length - pos) with h' | h'
    · rw [Nat.min_eq_left h']
      congr 1
      omega
    · rw [Nat.min_eq_right (Nat.le_of_lt h')]
      rw [List.take_of_length_le (by rw [List.length_drop]; omega),
          List.take_of_length_le (by rw [List.length_drop]; omega)]
  rw [scanReader, hstep, hres]

theorem scanReader_found_two (d : List Nat) (pos p fuel : Nat) (sf : Bool)
    (hfirst : ∀ q, pos ≤ q → q < p → ¬ matchAt d q)
    (hmatch : matchAt d p)
    (hlo : pos + 4093 ≤ p)
    (hhi : p < pos + 4096)
    (hlen1 : pos + 4096 < d.length) :
    scanReader (fuel + 2) ⟨d, pos, sf⟩ sigBytes =
      some (.ok ((d.drop (p + 4)).take
            (pos + 4096 + min 4093 (d.length - (pos + 4096)) - (p + 4)),
          ⟨d, pos + 4096 + min 4093 (d.length - (pos + 4096)), sf⟩)) := by
  have hlen : p + 4 ≤ d.length := matchAt_le d p hmatch
  have hread1 := readStream_ok d pos 4096 sf (by omega) (by omega)
  have hm1 : min 4096 (d.length - pos) = 4096 := Nat.min_eq_left (by omega)
  rw [hm1] at hread1
  have hidx1 : goIndex sigBytes ([] ++ (d.drop pos).take 4096) = none := by
    rw [List.nil_append]
    apply goIndex_none
    intro j
    rw [sigBytes_len]
    rcases le_or_lt (j + 4) 4096 with hj | hj
    · rw [window_take4 _ _ _ hj, List.drop_drop]
      exact hfirst (pos + j) (by omega) (by omega)
    · exact window_short _ _ _ (by omega)
  have hmiss := scanLoop_step_miss sigBytes (fuel + 1) ⟨d, pos, sf⟩ []
      ((d.drop pos).take 4096) ⟨d, pos + 4096, sf⟩
      (by simpa using hread1) hidx1
      (by rw [List.nil_append, List.length_take, List.length_drop, sigBytes_len]; omega)
  have hcarry : (([] ++ (d.drop pos).take 4096).drop
      (([] ++ (d.drop pos).take 4096).length - (sigBytes.length - 1))) =
      (d.drop (pos + 4093)).take 3 := by
    rw [List.nil_append, sigBytes_len, List.length_take, List.length_drop]
    have hm : min 4096 (d.length - pos) - (4 - 1) = 4093 := by omega
    rw [hm, List.drop_take, List.drop_drop]
  have hclen : ((d.drop (pos + 4093)).take 3).length = 3 := by
    rw [List.length_take, List.length_drop]
    omega
  have hread2 := readStream_ok d (pos + 4096) 4093 sf (by omega) (by omega)
  have hcur : (d.drop (pos + 4093)).take 3 ++ (d.drop (pos + 4096)).take 4093 =
      (d.drop (pos + 4093)).take (3 + 4093) := by
    rw [List.take_add, List.drop_drop]
  have hidx2 : goIndex sigBytes ((d.drop (pos + 4093)).take 3 ++
      (d.drop (pos + 4096)).take 4093) = some (p - (pos + 4093)) := by
    rw [hcur]
    apply goIndex_some
    · rw [sigBytes_len, window_take4 _ _ _ (by omega), List.drop_drop]
      have hpp : pos + 4093 + (p - (pos + 4093)) = p := by omega
      rw [hpp]
      exact hmatch
    · intro j hj
      rw [sigBytes_len, window_take4 _ _ _ (by omega), List.drop_drop]
      exact hfirst (pos + 4093 + j) (by omega) (by omega)
  have hstep := scanLoop_step_found sigBytes fuel ⟨d, pos + 4096, sf⟩
      ((d.drop (pos + 4093)).take 3) ((d.drop (pos + 4096)).take 4093)
      ⟨d, pos + 4096 + min 4093 (d.length - (pos + 4096)), sf⟩ (p - (pos + 4093))
      (by rw [hclen]; exact hread2) hidx2
  have hres : (((d.drop (pos + 4093)).take 3 ++ (d.drop (pos + 4096)).take 4093).drop
        ((p - (pos + 4093)) + sigBytes.length)) =
      (d.drop (p + 4)).take (pos + 4096 + min 4093 (d.length - (pos + 4096)) - (p + 4)) := by
    rw [hcur, sigBytes_len, List.drop_take, List.drop_drop]
    have hix : pos + 4093 + (p - (pos + 4093) + 4) = p + 4 := by omega
    rw [hix]
    rcases le_or_lt 4093 (d.length - (pos + 4096)) with h' | h'
    · rw [Nat.min_eq_left h']
      have harg : 3 + 4093 - (p - (pos + 4093) + 4) = pos + 4096 + 4093 - (p + 4) := by
        omega
      rw [harg]
    · rw [Nat.min_eq_right (Nat.le_of_lt h')]
      rw [List.take_of_length_le (by rw [List.length_drop]; omega),
          List.take_of_length_le (by rw [List.length_drop]; omega)]
  show scanLoop sigBytes (fuel + 1 + 1) ⟨d, pos, sf⟩ [] = _
  rw [hmiss, hcarry, hstep, hres]

theorem readU16_enc (v : Nat) (r : List Nat) (hv : v < 65536) :
    readU16 (encodeU16 v ++ r) = (v, r) := by
  simp only [encodeU16, List.cons_append, List.nil_append, readU16]
  rw [Prod.mk.injEq]
  exact ⟨by omega, rfl⟩

theorem readU32_enc (v : Nat) (r : List Nat) (hv : v < 4294967296) :
    readU32 (encodeU32 v ++ r) = (v, r) := by
  simp only [encodeU32, List.cons_append, List.nil_append, readU32]
  rw [Prod.mk.injEq]
  exact ⟨by omega, rfl⟩

theorem encodeFixed_length (h : FileHeader) : (encodeFixed h).length = 26 := by
  simp [encodeFixed, encodeU16, encodeU32]

theorem encodeHeaderBody_length (h : FileHeader) :
    (encodeHeaderBody h).length = 26 + h.name.length + h.extra.length := by
  simp [encodeHeaderBody, encodeFixed_length]
  omega

theorem decodeFields_enc (h : FileHeader) (r : List Nat)
    (hv : h.version < 65536) (hf : h.flags < 65536) (hc : h.compression < 65536)
    (hmt : h.mtime < 65536) (hmd : h.mdate < 65536)
    (hcrc : h.crc32 < 4294967296) (hcs : h.csize < 4294967296) (hsz : h.size < 4294967296)
    (hnl : h.namelen < 65536) (hel : h.extralen < 65536) :
    decodeFields (encodeFixed h ++ r) = { h with name := [], extra := [] } := by
  simp only [decodeFields, encodeFixed, List.append_assoc,
    readU16_enc _ _ hv, readU16_enc _ _ hf, readU16_enc _ _ hc,
    readU16_enc _ _ hmt, readU16_enc _ _ hmd,
    readU32_enc _ _ hcrc, readU32_enc _ _ hcs, readU32_enc _ _ hsz,
    readU16_enc _ _ hnl, readU16_enc _ _ hel]

theorem seekCur_ok (d : List Nat) (pos : Nat) (delta : Int)
    (hd : 0 ≤ (pos : Int) + delta) :
    seekCur ⟨d, pos, false⟩ delta = .ok ⟨d, ((pos : Int) + delta).toNat, false⟩ := by
  simp only [seekCur]
  rw [if_neg (by simp), if_neg (by omega)]

theorem seekCur_zero (d : List Nat) (pos : Nat) :
    seekCur ⟨d, pos, false⟩ 0 = .ok ⟨d, pos, false⟩ := by
  rw [seekCur_ok d pos 0 (by omega)]
  norm_num

theorem seekIgnore_back (d : List Nat) (pos n : Nat) (hn : n ≤ pos) :
    seekIgnore ⟨d, pos, false⟩ (-(n : Int)) = ⟨d, pos - n, false⟩ := by
  have ht : ((pos : Int) + -(n : Int)).toNat = pos - n := by omega
  simp only [seekIgnore, seekCur_ok d pos (-(n : Int)) (by omega), ht]

theorem decodePhase_reject (rest : List Nat) (s : ZStream)
    (hbad : ¬ lengthsOK (decodeFields rest)) :
    decodePhase rest s = .rejected (seekIgnore s (-(rest.length : Int))) := by
  rw [decodePhase, if_pos]
  unfold lengthsOK at hbad
  omega

theorem decodePhase_accept (h : FileHeader) (r : List Nat) (d : List Nat) (pos : Nat)
    (hv : h.version < 65536) (hf : h.flags < 65536) (hc : h.compression < 65536)
    (hmt : h.mtime < 65536) (hmd : h.mdate < 65536)
    (hcrc : h.crc32 < 4294967296) (hcs : h.csize < 4294967296) (hsz : h.size < 4294967296)
    (hname : h.name.length = h.namelen) (hextra : h.extra.length = h.extralen)
    (hb1 : h.namelen ≤ 255) (hb2 : h.extralen ≤ 255) (hb3 : h.namelen + h.extralen ≤ 255)
    (hlen285 : 285 ≤ (encodeHeaderBody h ++ r).length)
    (hrpos : r.length ≤ pos) :
    decodePhase (encodeHeaderBody h ++ r) ⟨d, pos, false⟩ =
      .found h ⟨d, pos - r.length, false⟩ := by
  have hdec : decodeFields (encodeHeaderBody h ++ r) = { h with name := [], extra := [] } := by
    rw [encodeHeaderBody, List.append_assoc, List.append_assoc]
    exact decodeFields_enc h _ hv hf hc hmt hmd hcrc hcs hsz (by omega) (by omega)
  have hpad : List.replicate (285 - (encodeHeaderBody h ++ r).length) (0 : Nat) = [] := by
    rw [List.replicate_eq_nil_iff]
    omega
  have hblen : (encodeHeaderBody h).length = 26 + h.namelen + h.extralen := by
    rw [encodeHeaderBody_length]
    omega
  have hnm : ((encodeHeaderBody h ++ r).drop 26).take h.namelen = h.name := by
    rw [encodeHeaderBody, List.append_assoc, List.append_assoc,
      List.drop_left' (encodeFixed_length h), List.take_append_of_le_length (by omega),
      List.take_of_length_le (by omega)]
  have hex : ((encodeHeaderBody h ++ r).drop (26 + h.namelen)).take h.extralen = h.extra := by
    have hassoc : encodeHeaderBody h ++ r = (encodeFixed h ++ h.name) ++ (h.extra ++ r) := by
      rw [encodeHeaderBody]
      simp [List.append_assoc]
    rw [hassoc, List.drop_left' (by rw [List.length_append, encodeFixed_length]; omega),
      List.take_append_of_le_length (by omega), List.take_of_length_le (by omega)]
  have hlen : ((encodeHeaderBody h ++ r).length : Int) = 26 + h.namelen + h.extralen + r.length := by
    rw [List.length_append, hblen]
    push_cast
    ring
  have hfin : ((pos : Int) + (26 + (h.namelen : Int) + (h.extralen : Int) -
      ((encodeHeaderBody h ++ r).length : Int))).toNat = pos - r.length := by
    rw [hlen]
    omega
  simp only [decodePhase, hdec]
  rw [if_neg (by omega)]
  rw [hpad, List.append_nil, hnm, hex]
  rw [seekCur_ok d pos _ (by rw [hlen]; push_cast; omega), hfin]

theorem nextStep_direct (fuel : Nat) (s : ZStream) (rest : List Nat) (s1 : ZStream)
    (hscan : scanReader fuel s sigBytes = some (.ok (rest, s1)))
    (hlen : ¬ rest.length < 285) :
    nextStep fuel s = some (decodePhase rest s1) := by
  simp only [nextStep, hscan, if_neg hlen]

theorem nextStep_topup (fuel : Nat) (s : ZStream) (rest : List Nat) (s1 : ZStream)
    (chunk : List Nat) (s2 : ZStream)
    (hscan : scanReader fuel s sigBytes = some (.ok (rest, s1)))
    (hlen : rest.length < 285)
    (hread : readStream s1 285 = .ok (chunk, s2)) :
    nextStep fuel s = some (decodePhase chunk s2) := by
  simp only [nextStep, hscan, if_pos hlen, hread]

theorem nextStep_topup_eof (fuel : Nat) (s : ZStream) (rest : List Nat) (s1 : ZStream)
    (hscan : scanReader fuel s sigBytes = some (.ok (rest, s1)))
    (hlen : rest.length < 285)
    (hread : readStream s1 285 = .err .eof) :
    nextStep fuel s = some (.errS .eof) := by
  simp only [nextStep, hscan, if_pos hlen, hread]

theorem nextFileHeader_found (fuel : Nat) (s : ZStream) (h : FileHeader) (s' : ZStream)
    (hstep : nextStep (fuel + 1) s = some (.found h s')) :
    nextFileHeader (fuel + 1) s = some (.ok (h, s')) := by
  simp only [nextFileHeader, hstep]

theorem nextFileHeader_rejected (fuel : Nat) (s : ZStream) (s' : ZStream)
    (hstep : nextStep (fuel + 1) s = some (.rejected s')) :
    nextFileHeader (fuel + 1) s = nextFileHeader fuel s' := by
  simp only [nextFileHeader, hstep]

theorem nextFileHeader_err (fuel : Nat) (s : ZStream) (e : GoErr)
    (hstep : nextStep (fuel + 1) s = some (.errS e)) :
    nextFileHeader (fuel + 1) s = some (.err e) := by
  simp only [nextFileHeader, hstep]

theorem searchFileHeaders_cons (fuel : Nat) (d : List Nat) (s : ZStream)
    (h : FileHeader) (q : Nat) (tl : List String) (e : GoErr)
    (hnext : nextFileHeader (fuel + 1) s = some (.ok (h, ⟨d, q, false⟩)))
    (hrest : searchFileHeaders fuel ⟨d, q, false⟩ = some (tl, e)) :
    searchFileHeaders (fuel + 1) s = some (formatLine h.name q h.size :: tl, e) := by
  simp only [searchFileHeaders, hnext, seekCur_zero, hrest]

theorem noMatch_repl (k q : Nat) (r : List Nat) (hq : q < k) :
    ¬ matchAt (List.replicate k 0 ++ r) q := by
  intro hc
  unfold matchAt at hc
  rw [List.drop_append_of_le_length (by rw [List.length_replicate]; omega),
    List.drop_replicate] at hc
  have hk : k - q = (k - q - 1) + 1 := by omega
  rw [hk, List.replicate_succ, List.cons_append] at hc
  have hh := congrArg List.head? hc
  simp [sigBytes] at hh

theorem matchAt_junction (pre x : List Nat) : matchAt (pre ++ (sigBytes ++ x)) pre.length := by
  unfold matchAt
  rw [List.drop_left, List.take_append_of_le_length (by rw [sigBytes_len])]
  rfl


theorem sig_no_overlap (d : List Nat) (p i : Nat) (h : matchAt d p)
    (hi : 1 ≤ i) (hi3 : i ≤ 3) : ¬ matchAt d (p + i) := by
  intro hc
  unfold matchAt at h hc
  have hd : d.drop p = 80 :: 75 :: 3 :: 4 :: (d.drop p).drop 4 := by
    conv_lhs => rw [← List.take_append_drop 4 (d.drop p)]
    rw [h]
    rfl
  rw [← List.drop_drop, hd] at hc
  interval_cases i <;> simp [sigBytes] at hc

set_option maxHeartbeats 2000000 in
theorem nextFileHeader_accept_enc (pre suff : List Nat) (h : FileHeader) (fuel : Nat)
    (hv : h.version < 65536) (hf : h.flags < 65536) (hc : h.compression < 65536)
    (hmt : h.mtime < 65536) (hmd : h.mdate < 65536)
    (hcrc : h.crc32 < 4294967296) (hcs : h.csize < 4294967296) (hsz : h.size < 4294967296)
    (hname : h.name.length = h.namelen) (hextra : h.extra.length = h.extralen)
    (hb1 : h.namelen ≤ 255) (hb2 : h.extralen ≤ 255) (hb3 : h.namelen + h.extralen ≤ 255)
    (hfirst : ∀ q < pre.length, ¬ matchAt (pre ++ (sigBytes ++ (encodeHeaderBody h ++ suff))) q)
    (hg1 : pre.length + 289 ≤ 4096)
    (hg2 : 285 ≤ 26 + h.name.length + h.extra.length + suff.length) :
    nextFileHeader (fuel + 1) ⟨pre ++ (sigBytes ++ (encodeHeaderBody h ++ suff)), 0, false⟩ =
      some (.ok (h, ⟨pre ++ (sigBytes ++ (encodeHeaderBody h ++ suff)),
        pre.length + 30 + h.namelen + h.extralen, false⟩)) := by
  have hbody : (encodeHeaderBody h).length = 26 + h.namelen + h.extralen := by
    rw [encodeHeaderBody_length]
    omega
  have hDlen : (pre ++ (sigBytes ++ (encodeHeaderBody h ++ suff))).length =
      pre.length + 4 + (26 + h.namelen + h.extralen) + suff.length := by
    simp only [List.length_append, sigBytes_len, hbody]
    omega
  have hmatch : matchAt (pre ++ (sigBytes ++ (encodeHeaderBody h ++ suff))) pre.length :=
    matchAt_junction pre (encodeHeaderBody h ++ suff)
  have hscan := scanReader_found_one (pre ++ (sigBytes ++ (encodeHeaderBody h ++ suff)))
      0 pre.length fuel false (fun q _ hq => hfirst q hq) hmatch (by omega) (by omega)
  simp only [Nat.zero_add, Nat.sub_zero] at hscan
  have hdropD : (pre ++ (sigBytes ++ (encodeHeaderBody h ++ suff))).drop (pre.length + 4) =
      encodeHeaderBody h ++ suff := by
    have hsplit : pre ++ (sigBytes ++ (encodeHeaderBody h ++ suff)) =
        (pre ++ sigBytes) ++ (encodeHeaderBody h ++ suff) :=
      (List.append_assoc pre sigBytes (encodeHeaderBody h ++ suff)).symm
    rw [hsplit, List.drop_left' (by rw [List.length_append, sigBytes_len])]
  rw [hdropD] at hscan
  have hm285 : 285 ≤ min 4096 ((pre ++ (sigBytes ++ (encodeHeaderBody h ++ suff))).length) -
      (pre.length + 4) := by omega
  have htake : (encodeHeaderBody h ++ suff).take
        (min 4096 ((pre ++ (sigBytes ++ (encodeHeaderBody h ++ suff))).length) - (pre.length + 4)) =
      encodeHeaderBody h ++ suff.take
        (min 4096 ((pre ++ (sigBytes ++ (encodeHeaderBody h ++ suff))).length) - (pre.length + 4) -
          (26 + h.namelen + h.extralen)) := by
    rw [List.take_append_eq_append_take]
    congr 1
    · exact List.take_of_length_le (by omega)
    · rw [hbody]
  rw [htake] at hscan
  have hsl : (suff.take
        (min 4096 ((pre ++ (sigBytes ++ (encodeHeaderBody h ++ suff))).length) - (pre.length + 4) -
          (26 + h.namelen + h.extralen))).length =
      min 4096 ((pre ++ (sigBytes ++ (encodeHeaderBody h ++ suff))).length) - (pre.length + 4) -
        (26 + h.namelen + h.extralen) := by
    rw [List.length_take]
    omega
  have hrestlen : ¬ (encodeHeaderBody h ++ suff.take
        (min 4096 ((pre ++ (sigBytes ++ (encodeHeaderBody h ++ suff))).length) - (pre.length + 4) -
          (26 + h.namelen + h.extralen))).length < 285 := by
    rw [List.length_append, hbody, hsl]
    omega
  have hstep := nextStep_direct (fuel + 1)
      ⟨pre ++ (sigBytes ++ (encodeHeaderBody h ++ suff)), 0, false⟩ _ _ hscan hrestlen
  have hacc := decodePhase_accept h
      (suff.take (min 4096 ((pre ++ (sigBytes ++ (encodeHeaderBody h ++ suff))).length) -
        (pre.length + 4) - (26 + h.namelen + h.extralen)))
      (pre ++ (sigBytes ++ (encodeHeaderBody h ++ suff)))
      (min 4096 ((pre ++ (sigBytes ++ (encodeHeaderBody h ++ suff))).length))
      hv hf hc hmt hmd hcrc hcs hsz hname hextra hb1 hb2 hb3
      (by rw [List.length_append, hbody, hsl]; omega)
      (by rw [hsl]; omega)
  rw [hsl] at hacc
  have hposfin : min 4096 ((pre ++ (sigBytes ++ (encodeHeaderBody h ++ suff))).length) -
      (min 4096 ((pre ++ (sigBytes ++ (encodeHeaderBody h ++ suff))).length) - (pre.length + 4) -
        (26 + h.namelen + h.extralen)) = pre.length + 30 + h.namelen + h.extralen := by
    omega
  rw [hposfin] at hacc
  rw [hacc] at hstep
  exact nextFileHeader_found fuel _ h _ hstep

/-- C2: for every byte stream whose first occurrence of the 4-byte magic
0x04034b50 starts at a position p with 4093 ≤ p < 4096, so that the
occurrence is split across the scanner's first two fixed-size reads, the
scanner still reports that occurrence exactly once, returning the buffered
bytes starting at the position immediately following the match; the
carried-over suffix of length len(pattern)-1 = 3 guarantees the straddling
occurrence is not missed. -/
theorem C2_theorem (d : List Nat) (p fuel : Nat)
    (hfirst : ∀ q < p, ¬ matchAt d q)
    (hmatch : matchAt d p)
    (hlo : 4093 ≤ p) (hhi : p < 4096) (hlen1 : 4096 < d.length) :
    scanReader (fuel + 2) ⟨d, 0, false⟩ sigBytes =
      some (.ok ((d.drop (p + 4)).take (4096 + min 4093 (d.length - 4096) - (p + 4)),
          ⟨d, 4096 + min 4093 (d.length - 4096), false⟩)) := by
  have h2 := scanReader_found_two d 0 p fuel false (fun q _ hq => hfirst q hq) hmatch
      (by omega) (by omega) (by omega)
  simpa using h2


/-- Witness for C2: a concrete stream whose only signature occurrence starts
at offset 4094, straddling the first 4096-byte read. -/
theorem C2_witness :
    (∀ q < 4094, ¬ matchAt stradStream q) ∧ matchAt stradStream 4094 ∧
      4096 < stradStream.length ∧
      scanReader (0 + 2) ⟨stradStream, 0, false⟩ sigBytes =
        some (.ok ((stradStream.drop (4094 + 4)).take
            (4096 + min 4093 (stradStream.length - 4096) - (4094 + 4)),
          ⟨stradStream, 4096 + min 4093 (stradStream.length - 4096), false⟩)) := by
  have hfirst : ∀ q < 4094, ¬ matchAt stradStream q := fun q hq =>
    noMatch_repl 4094 q (sigBytes ++ List.replicate 20 7) hq
  have hmatch : matchAt stradStream 4094 := by
    have hj := matchAt_junction (List.replicate 4094 0) (List.replicate 20 7)
    rw [List.length_replicate] at hj
    exact hj
  have hlen : stradStream.length = 4118 := by
    rw [stradStream, List.length_append, List.length_append, List.length_replicate,
      List.length_replicate, sigBytes_len]
  exact ⟨hfirst, hmatch, by omega,
    C2_theorem stradStream 4094 0 hfirst hmatch (by omega) (by omega) (by omega)⟩
/-- C1 (amended): when a candidate whose signature had at least 285 buffered
bytes after it is rejected for implausible lengths, the scan resumes exactly
at the position immediately after the four consumed signature bytes - with
no further one-byte rewind - and no genuine signature occurrence can begin
one, two or three bytes after the rejected signature start, because the
signature cannot overlap itself; hence nothing discoverable is lost. -/
theorem C1_theorem (d : List Nat) (p fuel : Nat)
    (hfirst : ∀ q < p, ¬ matchAt d q)
    (hmatch : matchAt d p)
    (hgeo : p + 4 + 285 ≤ min 4096 d.length)
    (hrej : ¬ lengthsOK (decodeFields ((d.drop (p + 4)).take (min 4096 d.length - (p + 4))))) :
    nextStep (fuel + 1) ⟨d, 0, false⟩ = some (.rejected ⟨d, p + 4, false⟩) ∧
      ¬ matchAt d (p + 1) ∧ ¬ matchAt d (p + 2) ∧ ¬ matchAt d (p + 3) := by
  have hlen := matchAt_le d p hmatch
  have hscan := scanReader_found_one d 0 p fuel false (fun q _ hq => hfirst q hq) hmatch
      (by omega) (by omega)
  simp only [Nat.zero_add, Nat.sub_zero] at hscan
  have hrl : ((d.drop (p + 4)).take (min 4096 d.length - (p + 4))).length =
      min 4096 d.length - (p + 4) := by
    rw [List.length_take, List.length_drop]
    omega
  have hrestlen : ¬ ((d.drop (p + 4)).take (min 4096 d.length - (p + 4))).length < 285 := by
    rw [hrl]
    omega
  have hstep := nextStep_direct (fuel + 1) ⟨d, 0, false⟩ _ _ hscan hrestlen
  have hrej2 := decodePhase_reject ((d.drop (p + 4)).take (min 4096 d.length - (p + 4)))
      ⟨d, min 4096 d.length, false⟩ hrej
  rw [hrl] at hrej2
  rw [seekIgnore_back d (min 4096 d.length) (min 4096 d.length - (p + 4)) (by omega)] at hrej2
  have hsub : min 4096 d.length - (min 4096 d.length - (p + 4)) = p + 4 := by omega
  rw [hsub] at hrej2
  rw [hrej2] at hstep
  exact ⟨hstep, sig_no_overlap d p 1 hmatch (by omega) (by omega),
    sig_no_overlap d p 2 hmatch (by omega) (by omega),
    sig_no_overlap d p 3 hmatch (by omega) (by omega)⟩

theorem C1_counterexample :
    nextStep 2 ⟨d1, 0, false⟩ = some (.rejected ⟨d1, 4, false⟩) ∧
      (4 : Nat) ≠ 0 + 1 ∧ (4 : Nat) ≠ 0 + 4 - 1 :=
  ⟨by decide, by decide, by decide⟩

theorem C1_witness :
    matchAt d1 0 ∧ 0 + 4 + 285 ≤ min 4096 d1.length ∧
      ¬ lengthsOK (decodeFields ((d1.drop (0 + 4)).take (min 4096 d1.length - (0 + 4)))) ∧
      (nextStep (0 + 1) ⟨d1, 0, false⟩ = some (.rejected ⟨d1, 0 + 4, false⟩) ∧
        ¬ matchAt d1 (0 + 1) ∧ ¬ matchAt d1 (0 + 2) ∧ ¬ matchAt d1 (0 + 3)) := by
  refine ⟨by decide, by decide, by decide, ?_⟩
  exact C1_theorem d1 0 0 (fun q hq => absurd hq (by omega)) (by decide) (by decide) (by decide)

theorem d4_len : d4.length = 4097 := by
  have hbl : (encodeHeaderBody hA).length = 31 := by decide
  rw [d4, List.length_append, List.length_append, List.length_append,
    List.length_replicate, List.length_replicate, sigBytes_len, hbl]

theorem d4_first : ∀ q < 4000, ¬ matchAt d4 q := fun q hq =>
  noMatch_repl 4000 q (sigBytes ++ (encodeHeaderBody hA ++ List.replicate 62 0)) hq

theorem d4_match : matchAt d4 4000 := by
  have hj := matchAt_junction (List.replicate 4000 0) (encodeHeaderBody hA ++ List.replicate 62 0)
  rw [List.length_replicate] at hj
  exact hj

theorem d4_drop4000 : d4.drop 4000 = sigBytes ++ (encodeHeaderBody hA ++ List.replicate 62 0) := by
  rw [d4]
  exact List.drop_left' (by rw [List.length_replicate])

theorem d4_chunk : (d4.drop 4096).take 285 = [0] := by
  have h1 : (4096 : Nat) = (List.replicate 4000 (0 : Nat)).length + 96 := by
    rw [List.length_replicate]
  rw [d4, h1, List.drop_append]
  have h2 : (96 : Nat) = sigBytes.length + 92 := by rw [sigBytes_len]
  rw [h2, List.drop_append]
  have h3 : (92 : Nat) = (encodeHeaderBody hA).length + 61 := by
    have hbl : (encodeHeaderBody hA).length = 31 := by decide
    rw [hbl]
  rw [h3, List.drop_append, List.drop_replicate, List.take_replicate]
  decide

theorem d4_run : nextFileHeader 2 ⟨d4, 0, false⟩ = some (.ok (hZero, ⟨d4, 4122, false⟩)) := by
  have hl := d4_len
  have hscan := scanReader_found_one d4 0 4000 1 false (fun q _ hq => d4_first q hq) d4_match
      (by omega) (by omega)
  have hrlen : ((d4.drop (4000 + 4)).take
      (0 + min 4096 (d4.length - 0) - (4000 + 4))).length < 285 := by
    rw [List.length_take, List.length_drop]
    omega
  have hread := readStream_ok d4 (0 + min 4096 (d4.length - 0)) 285 false (by omega) (by omega)
  have hstep := nextStep_topup (1 + 1) ⟨d4, 0, false⟩ _ _ _ _ hscan hrlen hread
  have hchunk : (d4.drop (0 + min 4096 (d4.length - 0))).take 285 = [0] := by
    rw [(by omega : 0 + min 4096 (d4.length - 0) = 4096)]
    exact d4_chunk
  have hs2 : (0 + min 4096 (d4.length - 0)) +
      min 285 (d4.length - (0 + min 4096 (d4.length - 0))) = 4097 := by
    omega
  have hdp : decodePhase ((d4.drop (0 + min 4096 (d4.length - 0))).take 285)
      ⟨d4, (0 + min 4096 (d4.length - 0)) +
        min 285 (d4.length - (0 + min 4096 (d4.length - 0))), false⟩ =
      .found hZero ⟨d4, 4122, false⟩ := by
    rw [hchunk, hs2]
    exact rfl
  exact nextFileHeader_found 1 _ hZero _ (hstep.trans (congrArg some hdp))

/-- Counterexample to C3 as stated: on stream d4 the genuine header at offset
4000 (name length 5, extra length 0, so its extra field ends at offset 4035)
is accepted through the top-up path, and the reported offset is 4122, which
is not the byte position immediately following that header's extra field. -/
theorem C3_counterexample :
    nextFileHeader 2 ⟨d4, 0, false⟩ = some (.ok (hZero, ⟨d4, 4122, false⟩)) ∧
      d4.drop 4000 = sigBytes ++ (encodeHeaderBody hA ++ List.replicate 62 0) ∧
      hA.namelen = 5 ∧ hA.extralen = 0 ∧
      (4122 : Nat) ≠ 4000 + 30 + hA.namelen + hA.extralen :=
  ⟨d4_run, d4_drop4000, rfl, rfl, by decide⟩

/-- Counterexample to C6 as stated: on stream d4 only 92 buffered bytes
follow the signature, and the decoder does not decode the fixed fields from
the bytes immediately following the signature: those bytes decode to version
20 and name length 5, yet the returned header has version 0 and name length
0, decoded from the single top-up byte at the end of the stream. -/
theorem C6_counterexample :
    nextFileHeader 2 ⟨d4, 0, false⟩ = some (.ok (hZero, ⟨d4, 4122, false⟩)) ∧
      d4.drop 4000 = sigBytes ++ (encodeHeaderBody hA ++ List.replicate 62 0) ∧
      (decodeFields (encodeHeaderBody hA ++ List.replicate 62 0)).version = 20 ∧
      (decodeFields (encodeHeaderBody hA ++ List.replicate 62 0)).namelen = 5 ∧
      hZero.version = 0 ∧ hZero.namelen = 0 ∧ (0 : Nat) ≠ 20 :=
  ⟨d4_run, d4_drop4000, by decide, by decide, rfl, rfl, by decide⟩

/-- C6 (amended): the decoder's top-up threshold is headersize = 30 + 255 =
285 bytes, not 26 + 255 + 255 = 536; when fewer than 285 bytes follow the
matched signature in the scan buffer, the decoder reads up to 285 fresh
bytes and decodes the candidate from those newly read bytes - the bytes at
the end of the already-scanned region - rather than from the bytes
immediately following the signature; when the stream is already exhausted,
that read fails and the step surfaces EOF instead of decoding. -/
theorem C6_theorem (d : List Nat) (p fuel : Nat)
    (hfirst : ∀ q < p, ¬ matchAt d q)
    (hmatch : matchAt d p)
    (hin : p + 4 ≤ min 4096 d.length)
    (hshort : min 4096 d.length - (p + 4) < 285) :
    (d.length ≤ 4096 → nextStep (fuel + 1) ⟨d, 0, false⟩ = some (.errS .eof)) ∧
      (4096 < d.length → nextStep (fuel + 1) ⟨d, 0, false⟩ =
        some (decodePhase ((d.drop (min 4096 d.length)).take 285)
          ⟨d, min 4096 d.length + min 285 (d.length - min 4096 d.length), false⟩)) := by
  have hlen := matchAt_le d p hmatch
  have hscan := scanReader_found_one d 0 p fuel false (fun q _ hq => hfirst q hq) hmatch
      (by omega) (by omega)
  simp only [Nat.zero_add, Nat.sub_zero] at hscan
  have hrlen : ((d.drop (p + 4)).take (min 4096 d.length - (p + 4))).length < 285 := by
    rw [List.length_take, List.length_drop]
    omega
  constructor
  · intro hle
    have hread := readStream_eof d (min 4096 d.length) 285 false (by omega) (by omega)
    exact nextStep_topup_eof (fuel + 1) _ _ _ hscan hrlen hread
  · intro hgt
    have hread := readStream_ok d (min 4096 d.length) 285 false (by omega) (by omega)
    exact nextStep_topup (fuel + 1) _ _ _ _ _ hscan hrlen hread

/-- Witness for C6 at stream d4, whose signature at offset 4000 leaves only
92 buffered bytes inside the first chunk. -/
theorem C6_witness :
    matchAt d4 4000 ∧ 4000 + 4 ≤ min 4096 d4.length ∧
      min 4096 d4.length - (4000 + 4) < 285 ∧
      (4096 < d4.length → nextStep (1 + 1) ⟨d4, 0, false⟩ =
        some (decodePhase ((d4.drop (min 4096 d4.length)).take 285)
          ⟨d4, min 4096 d4.length + min 285 (d4.length - min 4096 d4.length), false⟩)) := by
  have hl := d4_len
  refine ⟨d4_match, by omega, by omega, ?_⟩
  exact (C6_theorem d4 4000 1 (fun q hq => d4_first q hq) d4_match (by omega) (by omega)).2

/-- Counterexample to C4 as stated: the stream d5 consists of exactly one
synthetically constructed valid local file header with in-bound field values,
yet decoding does not reproduce the fields: because fewer than 285 bytes
follow the signature and the stream is exhausted, the 285-byte top-up read
fails and the program reports no header at all, only EOF. -/
theorem C4_counterexample :
    nextFileHeader 2 ⟨d5, 0, false⟩ = some (.err .eof) ∧
      searchFileHeaders 2 ⟨d5, 0, false⟩ = some ([], .eof) :=
  ⟨by decide, by decide⟩

/-- C4 (amended): for every synthetically constructed valid local file header
with arbitrary within-bound field values, placed anywhere in the stream such
that no earlier signature occurrence exists and at least 285 bytes follow the
signature inside the scanner's first 4096-byte read, decoding reproduces
every field exactly - version, flags, compression method, mtime, mdate,
crc32, compressed size, uncompressed size, name bytes and extra bytes. -/
theorem C4_theorem (pre suff : List Nat) (h : FileHeader) (fuel : Nat)
    (hv : h.version < 65536) (hf : h.flags < 65536) (hc : h.compression < 65536)
    (hmt : h.mtime < 65536) (hmd : h.mdate < 65536)
    (hcrc : h.crc32 < 4294967296) (hcs : h.csize < 4294967296) (hsz : h.size < 4294967296)
    (hname : h.name.length = h.namelen) (hextra : h.extra.length = h.extralen)
    (hb1 : h.namelen ≤ 255) (hb2 : h.extralen ≤ 255) (hb3 : h.namelen + h.extralen ≤ 255)
    (hfirst : ∀ q < pre.length, ¬ matchAt (pre ++ (sigBytes ++ (encodeHeaderBody h ++ suff))) q)
    (hg1 : pre.length + 289 ≤ 4096)
    (hg2 : 285 ≤ 26 + h.name.length + h.extra.length + suff.length) :
    nextFileHeader (fuel + 1) ⟨pre ++ (sigBytes ++ (encodeHeaderBody h ++ suff)), 0, false⟩ =
      some (.ok (h, ⟨pre ++ (sigBytes ++ (encodeHeaderBody h ++ suff)),
        pre.length + 30 + h.namelen + h.extralen, false⟩)) :=
  nextFileHeader_accept_enc pre suff h fuel hv hf hc hmt hmd hcrc hcs hsz
    hname hextra hb1 hb2 hb3 hfirst hg1 hg2

/-- Witness for C4: the header hB, with a distinct nontrivial value in every
field, is reproduced exactly from the stream dB. -/
theorem C4_witness :
    hB.name.length = hB.namelen ∧ hB.extra.length = hB.extralen ∧
      hB.namelen + hB.extralen ≤ 255 ∧
      nextFileHeader (0 + 1) ⟨dB, 0, false⟩ =
        some (.ok (hB, ⟨dB, List.length ([] : List Nat) + 30 + hB.namelen + hB.extralen,
          false⟩)) := by
  refine ⟨by decide, by decide, by decide, ?_⟩
  exact C4_theorem [] (List.replicate 280 0) hB 0 (by decide) (by decide) (by decide)
    (by decide) (by decide) (by decide) (by decide) (by decide) (by decide) (by decide)
    (by decide) (by decide) (by decide) (fun q hq => absurd hq (by simp))
    (by decide) (by decide)

/-- C3 (amended): for every header accepted from a candidate with at least
285 buffered bytes after its signature, the reported offset is exactly the
byte position immediately following the header's extra field
(signature start + 30 + nameLength + extraLength), the next scan resumes
searching at exactly that position, and the position never includes the
declared compressed or uncompressed size. -/
theorem C3_theorem (pre suff : List Nat) (h : FileHeader) (fuel : Nat)
    (tl : List String) (e : GoErr)
    (hv : h.version < 65536) (hf : h.flags < 65536) (hc : h.compression < 65536)
    (hmt : h.mtime < 65536) (hmd : h.mdate < 65536)
    (hcrc : h.crc32 < 4294967296) (hcs : h.csize < 4294967296) (hsz : h.size < 4294967296)
    (hname : h.name.length = h.namelen) (hextra : h.extra.length = h.extralen)
    (hb1 : h.namelen ≤ 255) (hb2 : h.extralen ≤ 255) (hb3 : h.namelen + h.extralen ≤ 255)
    (hfirst : ∀ q < pre.length, ¬ matchAt (pre ++ (sigBytes ++ (encodeHeaderBody h ++ suff))) q)
    (hg1 : pre.length + 289 ≤ 4096)
    (hg2 : 285 ≤ 26 + h.name.length + h.extra.length + suff.length)
    (hrest : searchFileHeaders fuel ⟨pre ++ (sigBytes ++ (encodeHeaderBody h ++ suff)),
        pre.length + 30 + h.namelen + h.extralen, false⟩ = some (tl, e)) :
    nextFileHeader (fuel + 1) ⟨pre ++ (sigBytes ++ (encodeHeaderBody h ++ suff)), 0, false⟩ =
        some (.ok (h, ⟨pre ++ (sigBytes ++ (encodeHeaderBody h ++ suff)),
          pre.length + 30 + h.namelen + h.extralen, false⟩)) ∧
      searchFileHeaders (fuel + 1) ⟨pre ++ (sigBytes ++ (encodeHeaderBody h ++ suff)), 0, false⟩ =
        some (formatLine h.name (pre.length + 30 + h.namelen + h.extralen) h.size :: tl, e) := by
  have hn := nextFileHeader_accept_enc pre suff h fuel hv hf hc hmt hmd hcrc hcs hsz
    hname hextra hb1 hb2 hb3 hfirst hg1 hg2
  exact ⟨hn, searchFileHeaders_cons fuel _ _ h _ tl e hn hrest⟩

/-- Witness for C3: the padded single-entry archive; the "a.txt" header is
reported at offset 35, immediately after its extra field, and the scan
resumes there, reaching end of stream with no further report. -/
theorem C3_witness :
    searchFileHeaders 3 ⟨archivePad, 35, false⟩ = some ([], .eof) ∧
      nextFileHeader (3 + 1) ⟨archivePad, 0, false⟩ =
        some (.ok (hA, ⟨archivePad,
          List.length ([] : List Nat) + 30 + hA.namelen + hA.extralen, false⟩)) ∧
      searchFileHeaders (3 + 1) ⟨archivePad, 0, false⟩ =
        some (formatLine hA.name (List.length ([] : List Nat) + 30 + hA.namelen + hA.extralen)
          hA.size :: [], .eof) := by
  have hrest : searchFileHeaders 3 ⟨archivePad, 35, false⟩ = some ([], .eof) := by decide
  have hmain := C3_theorem [] suffA hA 3 [] .eof (by decide) (by decide) (by decide)
    (by decide) (by decide) (by decide) (by decide) (by decide) (by decide) (by decide)
    (by decide) (by decide) (by decide) (fun q hq => absurd hq (by simp))
    (by decide) (by decide) hrest
  exact ⟨hrest, hmain.1, hmain.2⟩

/-- C5: a candidate that reaches the validation stage is accepted as a
genuine header if and only if its decoded nameLength is at most 255, its
decoded extraLength is at most 255, and their sum is at most 255; a
candidate violating the bound is rejected with rewind-and-resume, and a
rejected candidate makes nextFileHeader retry silently - the rejection is
never surfaced to the caller as an error. -/
theorem C5_theorem (rest : List Nat) (d : List Nat) (pos : Nat)
    (hpos : rest.length ≤ pos + 26 + (decodeFields rest).namelen +
      (decodeFields rest).extralen) :
    ((∃ h' s', decodePhase rest ⟨d, pos, false⟩ = .found h' s') ↔
        lengthsOK (decodeFields rest)) ∧
      ((∃ s', decodePhase rest ⟨d, pos, false⟩ = .rejected s') ↔
        ¬ lengthsOK (decodeFields rest)) ∧
      (∀ fuel s0 s', nextStep (fuel + 1) s0 = some (.rejected s') →
        nextFileHeader (fuel + 1) s0 = nextFileHeader fuel s') := by
  by_cases hpl : lengthsOK (decodeFields rest)
  · have hcond : ¬ ((decodeFields rest).namelen > 255 ∨ (decodeFields rest).extralen > 255 ∨
        (decodeFields rest).namelen + (decodeFields rest).extralen > 255) := by
      unfold lengthsOK at hpl
      omega
    have hacc : decodePhase rest ⟨d, pos, false⟩ = .found
        { decodeFields rest with
          name := ((rest ++ List.replicate (285 - rest.length) 0).drop 26).take
            (decodeFields rest).namelen,
          extra := ((rest ++ List.replicate (285 - rest.length) 0).drop
            (26 + (decodeFields rest).namelen)).take (decodeFields rest).extralen }
        ⟨d, ((pos : Int) + (26 + ((decodeFields rest).namelen : Int) +
          ((decodeFields rest).extralen : Int) - (rest.length : Int))).toNat, false⟩ := by
      simp only [decodePhase, if_neg hcond,
        seekCur_ok d pos (26 + ((decodeFields rest).namelen : Int) +
          ((decodeFields rest).extralen : Int) - (rest.length : Int)) (by omega)]
    exact ⟨⟨fun _ => hpl, fun _ => ⟨_, _, hacc⟩⟩,
      ⟨fun hex => by
          obtain ⟨s', hs⟩ := hex
          rw [hacc] at hs
          exact StepRes.noConfusion hs,
        fun hn => absurd hpl hn⟩,
      fun fuel s0 s' hstep => nextFileHeader_rejected fuel s0 s' hstep⟩
  · have hrej := decodePhase_reject rest ⟨d, pos, false⟩ hpl
    exact ⟨⟨fun hex => by
          obtain ⟨h', s', hs⟩ := hex
          rw [hrej] at hs
          exact StepRes.noConfusion hs,
        fun hp => absurd hp hpl⟩,
      ⟨fun _ => hpl, fun _ => ⟨_, hrej⟩⟩,
      fun fuel s0 s' hstep => nextFileHeader_rejected fuel s0 s' hstep⟩

/-- Witness for C5 at a concrete candidate region that passes the bound. -/
theorem C5_witness :
    restC5.length ≤ 300 + 26 + (decodeFields restC5).namelen +
        (decodeFields restC5).extralen ∧
      ((∃ h' s', decodePhase restC5 ⟨[], 300, false⟩ = .found h' s') ↔
        lengthsOK (decodeFields restC5)) := by
  refine ⟨by decide, ?_⟩
  exact (C5_theorem restC5 [] 300 (by decide)).1

/-- C7: evaluation at the failing input. On stream d1 read through a
ReadSeeker whose Seek calls fail, the rejection-path Seek fails, yet
nextFileHeader discards that error and continues scanning, terminating with
EOF instead of the seek error; the code checks the same Seek's error on the
accept path, so the claim reflects the intent and the rejection path is the
slip. -/
theorem C7_theorem :
    nextFileHeader 2 ⟨d1, 0, true⟩ = some (.err .eof) ∧
      seekCur ⟨d1, 289, true⟩ (-(285 : Int)) = .err .seekFailed ∧
      GoErr.eof ≠ GoErr.seekFailed :=
  ⟨by decide, by decide, by decide⟩

/-- C8: whenever the search loop terminates with an error (end of stream
included, the runtime panic excluded), the driver prints the accumulated
header lines followed by the error text to standard output and the process
exits with status 0; the exit code never distinguishes normal completion
from an I/O error. -/
theorem C8_theorem (s : ZStream) (fuel : Nat) (lines : List String) (e : GoErr)
    (hrun : searchFileHeaders fuel s = some (lines, e))
    (hnp : e ≠ GoErr.panicked) :
    runMain ["hz", "file.zip"] s fuel = some (.done (lines ++ [errText e]) 0) := by
  simp [runMain, hrun, hnp]

/-- Witness for C8 on the empty stream, which terminates with EOF. -/
theorem C8_witness :
    searchFileHeaders 1 ⟨[], 0, false⟩ = some ([], GoErr.eof) ∧
      GoErr.eof ≠ GoErr.panicked ∧
      runMain ["hz", "file.zip"] ⟨[], 0, false⟩ 1 =
        some (.done ([] ++ [errText GoErr.eof]) 0) :=
  ⟨by decide, by decide, C8_theorem ⟨[], 0, false⟩ 1 [] GoErr.eof (by decide) (by decide)⟩

/-- C9 (amended): each accepted header is printed as one line of the form
name, " at ", offset, " len ", size. For the padded single-entry "a.txt"
archive (at least 285 bytes after the signature) the output is exactly that
one header line followed by the end-of-stream message; for a stream with no
occurrence of the magic, no header line is printed, only the end-of-stream
message; and for the minimal archive no header line is printed at all (see
the counterexample). -/
theorem C9_theorem :
    runMain ["hz", "a.zip"] ⟨archivePad, 0, false⟩ 4 =
        some (.done [formatLine aTxt 35 12, errText GoErr.eof] 0) ∧
      formatLine aTxt 35 12 = "a.txt at 35 len 12" ∧
      runMain ["hz", "b.bin"] ⟨List.replicate 50 1, 0, false⟩ 3 =
        some (.done [errText GoErr.eof] 0) :=
  ⟨by decide, by decide, by decide⟩

/-- Counterexample to C9 scenario A as stated: on the minimal well-formed
single-entry "a.txt" archive the entire output is just the end-of-stream
message; the header line "a.txt at 35 len 12" is never printed, because the
285-byte top-up read hits end of stream before the final header is decoded. -/
theorem C9_counterexample :
    runMain ["hz", "a.zip"] ⟨archiveMin, 0, false⟩ 3 = some (.done [errText GoErr.eof] 0) ∧
      [errText GoErr.eof] ≠ [formatLine aTxt 35 12] :=
  ⟨by decide, by decide⟩

/-- C10: invoked with only the program name in the argument list, main
prints the usage message and then still indexes the argument list at
position 1, which is out of bounds, causing a runtime panic rather than a
clean exit or an attempted run; the usage branch does not prevent execution
from reaching that access. -/
theorem C10_theorem (s : ZStream) (fuel : Nat) :
    runMain ["hidden_zip"] s fuel =
      some (.panicked ["Usage: hidden_zip <file.zip>",
        "Find hidden files in a Zip archive by looking for local file headers."]) := rfl
